import Mathlib

/-!
Verification development for the milstian-http repository.

The definitions below are a shallow embedding of the Rust sources
(`src/lib.rs`, `src/request.rs`, `src/response.rs`):

* byte buffers (`&[u8]`, `Vec<u8>`) become `List Nat` (each entry a byte value);
* `String`/`&str` become Lean `String` (a structure holding a `List Char`),
  operated on through explicit `List Char` functions mirroring the Rust
  string methods used by the sources (`split`, `splitn(2, _)`, `trim`,
  `trim_matches`, `is_empty`);
* `std::collections::HashMap` becomes an association list with
  insert-replaces-existing-key semantics (`mapInsert`/`mapLookup`);
  iteration order is irrelevant to the source logic except for the response
  encoder, which sorts its headers before emitting them;
* `str::from_utf8` becomes `utf8Decode` (a full UTF-8 validator/decoder) and
  `String::into_bytes`/`as_bytes` become `utf8Encode`;
* the imperative decode loop of `Message::from_tcp_stream` becomes a step
  function `stepByte` over an explicit `ScanState` record holding every
  mutable local of the Rust function, iterated by `runBytes` (a returned
  `false` flag models `break`);
* Rust `char::to_uppercase`/`to_lowercase` (used on header keys) are full
  Unicode case maps yielding character sequences, modelled by
  `rustToUppercase`/`rustToLowercase`: exact on ASCII and on the
  multi-character expansion of U+00DF, identity on the remaining characters
  (no theorem evaluates them outside that fragment); `str::trim`'s Unicode
  `White_Space` test is reproduced in full.
-/

/-! ## Generic helpers: association maps, slices, splitting, trimming -/

/-- `HashMap::insert`: replace the binding if the key is present, else add it. -/
def mapInsert {α : Type} (k : String) (v : α) : List (String × α) → List (String × α)
  | [] => [(k, v)]
  | (k', v') :: rest => if k' = k then (k, v) :: rest else (k', v') :: mapInsert k v rest

/-- `HashMap::get`: first binding of the key, if any. -/
def mapLookup {α : Type} (k : String) : List (String × α) → Option α
  | [] => none
  | (k', v') :: rest => if k' = k then some v' else mapLookup k rest

/-- Rust slice `&buf[a..b]` (total model; the source only evaluates it with
`a ≤ b ≤ buf.len()`, where it agrees with this definition). -/
def listSlice {α : Type} (l : List α) (a b : Nat) : List α :=
  (l.drop a).take (b - a)

/-- Rust `str::split(sep)` for a single-character separator: always returns at
least one (possibly empty) piece. -/
def splitOnChar (sep : Char) : List Char → List (List Char)
  | [] => [[]]
  | c :: cs =>
    match splitOnChar sep cs with
    | [] => [[]]
    | p :: ps => if c = sep then [] :: p :: ps else (c :: p) :: ps

/-- Rust `str::splitn(2, sep)` for a single-character separator: split at the
first occurrence only. -/
def splitN2 (sep : Char) : List Char → List (List Char)
  | [] => [[]]
  | c :: cs =>
    if c = sep then [[], cs]
    else
      match splitN2 sep cs with
      | [] => [[]]
      | p :: ps => (c :: p) :: ps

/-- Rust `char::is_whitespace`: the Unicode `White_Space` property. -/
def isRustWhitespace (c : Char) : Bool :=
  let n := c.toNat
  (9 ≤ n && n ≤ 13) || n = 32 || n = 133 || n = 160 || n = 5760 ||
    (8192 ≤ n && n ≤ 8202) || n = 8232 || n = 8233 || n = 8239 || n = 8287 || n = 12288

/-- Rust `str::trim` on the character list. -/
def trimList (l : List Char) : List Char :=
  ((l.dropWhile (fun c => isRustWhitespace c)).reverse.dropWhile
    (fun c => isRustWhitespace c)).reverse

/-- Rust `str::trim` producing a `String`. -/
def rustTrim (s : String) : String :=
  String.mk (trimList s.data)

/-- Rust `str::trim_matches(c)`: strip all leading and trailing copies of `c`. -/
def trimMatches (c : Char) (l : List Char) : List Char :=
  ((l.dropWhile (fun x => x = c)).reverse.dropWhile (fun x => x = c)).reverse

/-! ## UTF-8 decoding and encoding (`str::from_utf8`, `String::into_bytes`) -/

/-- Is this byte a UTF-8 continuation byte (`10xxxxxx`)? -/
def isContByte (b : Nat) : Bool := 128 ≤ b && b < 192

/-- Full UTF-8 validation/decoding, as performed by `str::from_utf8`:
rejects stray continuation bytes, overlong encodings, surrogates and
codepoints above `0x10FFFF`. -/
def utf8Decode : List Nat → Option (List Char)
  | [] => some []
  | b :: rest =>
    if b < 128 then
      match utf8Decode rest with
      | some cs => some (Char.ofNat b :: cs)
      | none => none
    else if b < 192 then none
    else if b < 224 then
      match rest with
      | b1 :: rest1 =>
        if isContByte b1 then
          let cp := (b - 192) * 64 + (b1 - 128)
          if 128 ≤ cp then
            match utf8Decode rest1 with
            | some cs => some (Char.ofNat cp :: cs)
            | none => none
          else none
        else none
      | [] => none
    else if b < 240 then
      match rest with
      | b1 :: b2 :: rest2 =>
        if isContByte b1 && isContByte b2 then
          let cp := (b - 224) * 4096 + (b1 - 128) * 64 + (b2 - 128)
          if 2048 ≤ cp && ¬ (55296 ≤ cp && cp ≤ 57343) then
            match utf8Decode rest2 with
            | some cs => some (Char.ofNat cp :: cs)
            | none => none
          else none
        else none
      | _ => none
    else if b < 248 then
      match rest with
      | b1 :: b2 :: b3 :: rest3 =>
        if isContByte b1 && isContByte b2 && isContByte b3 then
          let cp := (b - 240) * 262144 + (b1 - 128) * 4096 + (b2 - 128) * 64 + (b3 - 128)
          if 65536 ≤ cp && cp ≤ 1114111 then
            match utf8Decode rest3 with
            | some cs => some (Char.ofNat cp :: cs)
            | none => none
          else none
        else none
      | _ => none
    else none

/-- UTF-8 encoding of one scalar value. -/
def utf8EncodeChar (c : Char) : List Nat :=
  let n := c.toNat
  if n < 128 then [n]
  else if n < 2048 then [192 + n / 64, 128 + n % 64]
  else if n < 65536 then [224 + n / 4096, 128 + n / 64 % 64, 128 + n % 64]
  else [240 + n / 262144, 128 + n / 4096 % 64, 128 + n / 64 % 64, 128 + n % 64]

/-- `String::into_bytes` / `str::as_bytes`: UTF-8 encoding of a string. -/
def utf8Encode : List Char → List Nat
  | [] => []
  | c :: cs => utf8EncodeChar c ++ utf8Encode cs

/-- Byte buffer of a string literal (used to write down concrete requests). -/
def strBytes (s : String) : List Nat :=
  utf8Encode s.data

/-! ## `src/lib.rs`: header key canonicalization -/

/-- Rust `char::to_uppercase`: the full Unicode uppercase mapping, yielding a
sequence of characters (`capitalize_key` pushes each one).  Modelled exactly
on the fragment the theorems evaluate it on: the ASCII simple mapping, plus
the multi-character expansion of the sharp s (`'ß'.to_uppercase()` yields
`SS`); every other character maps to itself — the full Unicode special-casing
tables are not reproduced, and no theorem below evaluates this map outside
ASCII and U+00DF. -/
def rustToUppercase (c : Char) : List Char :=
  if 97 ≤ c.toNat ∧ c.toNat ≤ 122 then [Char.ofNat (c.toNat - 32)]
  else if c = 'ß' then ['S', 'S']
  else [c]

/-- Rust `char::to_lowercase`: the full Unicode lowercase mapping, yielding a
sequence of characters; on the fragment the theorems evaluate it on it is the
ASCII simple mapping (the sharp s lowercases to itself). -/
def rustToLowercase (c : Char) : List Char :=
  if 65 ≤ c.toNat ∧ c.toNat ≤ 90 then [Char.ofNat (c.toNat + 32)]
  else [c]

/-- Push the lowercase expansion of every character (the non-first-character
arm of the inner loop of `capitalize_key`). -/
def lowercaseAll : List Char → List Char
  | [] => []
  | c :: cs => rustToLowercase c ++ lowercaseAll cs

/-- Capitalize one `-`-delimited segment: the uppercase expansion of the
first character, then the lowercase expansions of the rest (the inner loop
of `capitalize_key`). -/
def capPart : List Char → List Char
  | [] => []
  | c :: cs => rustToUppercase c ++ lowercaseAll cs

/-- Join segments with `-` (the `first_part` flag logic of `capitalize_key`). -/
def joinDash : List (List Char) → List Char
  | [] => []
  | [p] => p
  | p :: ps => p ++ '-' :: joinDash ps

/-- `capitalize_key` from `src/lib.rs`: split on `-`, capitalize each part
(first char upper, rest lower), join with `-`. -/
def capitalize_key (word : String) : String :=
  String.mk (joinDash ((splitOnChar '-' word.data).map capPart))

namespace Request

/-! ## `src/request.rs`: data model -/

inductive Method where
  | Connect | Delete | Get | Head | Invalid | Options | Patch | Post | Put | Trace
  deriving DecidableEq, Repr

inductive Protocol where
  | Invalid | V1_0 | V1_1 | V2_0 | V0_9
  deriving DecidableEq, Repr

inductive HeaderValuePart where
  | Single (s : String)
  | KeyValue (k v : String)
  deriving DecidableEq, Repr

structure HeaderValueParts where
  parts : List (List HeaderValuePart)
  deriving DecidableEq, Repr

structure MultiPartValue where
  body : List Nat
  headers : List (String × HeaderValueParts)
  deriving DecidableEq, Repr

inductive BodyContentType where
  | SinglePart (m : List (String × String))
  | MultiPart (m : List (String × MultiPartValue))
  deriving DecidableEq, Repr

structure Line where
  method : Method
  protocol : Protocol
  raw : String
  request_uri : String
  request_uri_base : String
  query_arguments : List (String × String)
  query_string : String
  deriving DecidableEq, Repr

structure Message where
  body : BodyContentType
  headers : List (String × HeaderValueParts)
  request_line : Line
  deriving DecidableEq, Repr

inductive ParserSection where
  | Line | HeaderFields | MessageBody
  deriving DecidableEq, Repr

inductive MultiPartSection where
  | End | EndSecondary | EndBoundary | Skipping | Start | StartSuffix
  deriving DecidableEq, Repr

inductive ParserMode where
  | Boundaries (boundary : List Nat)
  | Lines
  deriving DecidableEq, Repr

inductive SettingValence where
  | Optional | No | Yes
  deriving DecidableEq, Repr

/-- First `KeyValue` sub-part in one parameter block matching the key. -/
def getKVInBlock (key : String) : List HeaderValuePart → Option String
  | [] => none
  | HeaderValuePart.KeyValue k v :: rest =>
    if k = key then some v else getKVInBlock key rest
  | HeaderValuePart.Single _ :: rest => getKVInBlock key rest

/-- Scan the blocks in order for the first matching `KeyValue`. -/
def getKVInBlocks (key : String) : List (List HeaderValuePart) → Option String
  | [] => none
  | blk :: rest =>
    match getKVInBlock key blk with
    | some v => some v
    | none => getKVInBlocks key rest

/-- `HeaderValueParts::get_key_value`: first `KeyValue` sub-part whose key
matches, scanning blocks then sub-parts in order. -/
def HeaderValueParts.get_key_value (hvp : HeaderValueParts) (key : String) : Option String :=
  getKVInBlocks key hvp.parts

namespace Message

/-- `Message::method_has_request_body`: body-presence policy per method. -/
def method_has_request_body (method : Method) : SettingValence :=
  match method with
  | Method.Connect => SettingValence.Yes
  | Method.Delete => SettingValence.No
  | Method.Get => SettingValence.Optional
  | Method.Head => SettingValence.No
  | Method.Options => SettingValence.Optional
  | Method.Patch => SettingValence.Yes
  | Method.Post => SettingValence.Yes
  | Method.Put => SettingValence.Yes
  | Method.Trace => SettingValence.Yes
  | Method.Invalid => SettingValence.Optional

/-- One iteration step of the query tokenizer of
`Message::get_query_args_from_string`: the item is split on every `=`
(`item.split("=")`); exactly two pieces give a key/value pair, any other
piece count maps the first piece to the literal `"1"`. -/
def insertQueryArg (args : List (String × String)) (item : List Char) : List (String × String) :=
  match splitOnChar '=' item with
  | [k, v] => mapInsert (String.mk k) (String.mk v) args
  | k :: _ => mapInsert (String.mk k) "1" args
  | [] => args

/-- `Message::get_query_args_from_string`: split a non-empty subject on `&`,
tokenize each item, and return the map only if it is non-empty. -/
def get_query_args_from_string (subject : String) : Option (List (String × String)) :=
  let args :=
    if subject.data ≠ [] then
      (splitOnChar '&' subject.data).foldl insertQueryArg []
    else []
  if args.length > 0 then some args else none

/-- `Message::get_message_body`: a single-part body from a query-string line. -/
def get_message_body (body : String) : Option BodyContentType :=
  match get_query_args_from_string body with
  | some args => some (BodyContentType.SinglePart args)
  | none => none

end Message

end Request

namespace Request

/-- The exact-match method table inside `Message::get_request_line`. -/
def methodFromText (s : String) : Method :=
  if s = "CONNECT" then Method.Connect
  else if s = "DELETE" then Method.Delete
  else if s = "GET" then Method.Get
  else if s = "HEAD" then Method.Head
  else if s = "OPTIONS" then Method.Options
  else if s = "PATCH" then Method.Patch
  else if s = "PUT" then Method.Put
  else if s = "POST" then Method.Post
  else if s = "TRACE" then Method.Trace
  else Method.Invalid

/-- The exact-match protocol table inside `Message::get_request_line`. -/
def protocolFromText (s : String) : Protocol :=
  if s = "HTTP/0.9" then Protocol.V0_9
  else if s = "HTTP/1.0" then Protocol.V1_0
  else if s = "HTTP/1.1" then Protocol.V1_1
  else if s = "HTTP/2.0" then Protocol.V2_0
  else Protocol.Invalid

namespace Message

/-- One parameter sub-block of a header value: `splitn(2, "=")` — two pieces
give `KeyValue` of the trimmed pieces, otherwise `Single` of the trimmed
sub-block. -/
def parseSubBlock (sub : List Char) : HeaderValuePart :=
  match splitN2 '=' sub with
  | [pk, pv] => HeaderValuePart.KeyValue (String.mk (trimList pk)) (String.mk (trimList pv))
  | _ => HeaderValuePart.Single (String.mk (trimList sub))

/-- `Message::get_header_field`: trim the line, split on the first `:`;
two pieces give a canonicalized key and a value parsed into
semicolon-separated blocks of comma-separated sub-blocks. -/
def get_header_field (line : String) : Option (String × HeaderValueParts) :=
  let l := trimList line.data
  if l ≠ [] then
    match splitN2 ':' l with
    | [k, v] =>
      let header_key := capitalize_key (String.mk (trimList k))
      let header_value := trimList v
      let header_parts :=
        (splitOnChar ';' header_value).map
          (fun blk => (splitOnChar ',' blk).map parseSubBlock)
      some (header_key, HeaderValueParts.mk header_parts)
    | _ => none
  else none

/-- The URI split shared by both branches of `Message::get_request_line`:
`splitn(2, "?")` — two pieces give (base, query string), otherwise the whole
URI is the base and the query string is empty. -/
def splitUri (uri : List Char) : List Char × List Char :=
  match splitN2 '?' uri with
  | [base, qs] => (base, qs)
  | _ => (uri, [])

/-- `Message::get_request_line`: trim, split on single spaces; three tokens
parse method/URI/protocol (a `Line` only if both are recognized); one token is
the legacy HTTP/0.9 form forcing `GET` and `HTTP/0.9`. -/
def get_request_line (line : String) : Option Line :=
  let l := trimList line.data
  match splitOnChar ' ' l with
  | [p0, p1, p2] =>
    let method := methodFromText (String.mk p0)
    let request_uri := String.mk p1
    let (request_uri_base, query_string) := splitUri p1
    let query_arguments :=
      match get_query_args_from_string (String.mk query_string) with
      | some query_args => query_args
      | none => []
    let protocol := protocolFromText (String.mk p2)
    if method ≠ Method.Invalid ∧ protocol ≠ Protocol.Invalid then
      some (Line.mk method protocol (String.mk l) request_uri
        (String.mk request_uri_base) query_arguments (String.mk query_string))
    else none
  | [p0] =>
    let request_uri := trimMatches (Char.ofNat 0) p0
    if request_uri ≠ [] then
      let (request_uri_base, query_string) := splitUri request_uri
      let query_arguments :=
        match get_query_args_from_string (String.mk query_string) with
        | some query_args => query_args
        | none => []
      some (Line.mk Method.Get Protocol.V0_9 (String.mk l) (String.mk request_uri)
        (String.mk request_uri_base) query_arguments (String.mk query_string))
    else none
  | _ => none

end Message

end Request

namespace Request
namespace Message

/-- The header-scanning loop of `Message::get_query_args_from_multipart_blob`:
walk `data` looking for CRLF-terminated lines; a blank line ends the headers
(`break`, recording the payload start); other lines are parsed as header
fields.  Returns the header map and the final `start` cursor.  Mirrors the
Rust loop state `(index, start, last_was_carriage_return, headers)`; a failed
UTF-8 decode leaves `start` unchanged. -/
def blobLoop (data : List Nat) :
    List Nat → Nat → Nat → Bool → List (String × HeaderValueParts) →
    List (String × HeaderValueParts) × Nat
  | [], _, start, _, headers => (headers, start)
  | b :: rest, index, start, lwcr, headers =>
    if b = 10 ∧ lwcr = true then
      match utf8Decode (listSlice data start index) with
      | some chars =>
        if trimList chars = [] then (headers, index + 1)
        else
          let headers :=
            match get_header_field (String.mk chars) with
            | some (k, v) => mapInsert k v headers
            | none => headers
          blobLoop data rest (index + 1) (index + 1) false headers
      | none => blobLoop data rest (index + 1) start false headers
    else if b = 13 then blobLoop data rest (index + 1) start true headers
    else blobLoop data rest (index + 1) start false headers

/-- `Message::get_query_args_from_multipart_blob`: parse the part's own
headers, take the name from `Content-Disposition`'s `name` parameter with
quotes stripped, and return it with the remaining payload bytes; a missing
name or empty payload yields nothing. -/
def get_query_args_from_multipart_blob (data : List Nat) : Option (String × MultiPartValue) :=
  let (headers, start) := blobLoop data data 0 0 false []
  let name :=
    match mapLookup "Content-Disposition" headers with
    | some content_disposition =>
      match content_disposition.get_key_value "name" with
      | some n => String.mk (trimMatches '"' n.data)
      | none => ""
    | none => ""
  if name ≠ "" then
    let body := data.drop start
    if body ≠ [] then some (name, MultiPartValue.mk body headers) else none
  else none

/-- `Message::parse_line`: dispatch one completed line to the current parser
section, returning the updated `(section, message, parser_mode)`. -/
def parse_line (line : String) (sec : ParserSection) (message : Message)
    (parser_mode : ParserMode) : ParserSection × Message × ParserMode :=
  match sec with
  | ParserSection.Line =>
    match get_request_line line with
    | some request_line_temp =>
      (ParserSection.HeaderFields, { message with request_line := request_line_temp }, parser_mode)
    | none => (sec, message, parser_mode)
  | ParserSection.HeaderFields =>
    if (rustTrim line).data = [] then
      let (parser_mode, message) :=
        match mapLookup "Content-Type" message.headers with
        | some content_type_header =>
          match content_type_header.get_key_value "boundary" with
          | some boundary =>
            (ParserMode.Boundaries (utf8Encode boundary.data),
             { message with body := BodyContentType.MultiPart [] })
          | none => (parser_mode, message)
        | none => (parser_mode, message)
      let sec :=
        if method_has_request_body message.request_line.method ≠ SettingValence.No then
          ParserSection.MessageBody
        else sec
      (sec, message, parser_mode)
    else
      match get_header_field line with
      | some (header_key, header_value) =>
        (sec, { message with headers := mapInsert header_key header_value message.headers },
         parser_mode)
      | none => (sec, message, parser_mode)
  | ParserSection.MessageBody =>
    if line.data ≠ [] then
      match get_message_body line with
      | some body_args => (sec, { message with body := body_args }, parser_mode)
      | none => (sec, message, parser_mode)
    else (sec, message, parser_mode)

end Message
end Request

namespace Request

/-- All mutable locals of the `Message::from_tcp_stream` loop.  `endIdx` is
the Rust variable `end` (the index of the byte being processed). -/
structure ScanState where
  message : Message
  start : Nat
  start_boundary : Nat
  start_data : Nat
  psection : ParserSection
  endIdx : Nat
  end_data : Nat
  lwcr : Bool
  parser_mode : ParserMode
  multipart_section : MultiPartSection
  deriving DecidableEq, Repr

/-- The initial temporary message of `Message::from_tcp_stream`. -/
def initialMessage : Message :=
  Message.mk (BodyContentType.SinglePart []) []
    (Line.mk Method.Invalid Protocol.Invalid "" "" "" [] "")

/-- The initial loop state of `Message::from_tcp_stream`. -/
def initialState : ScanState :=
  ScanState.mk initialMessage 0 0 0 ParserSection.Line 0 0 false
    ParserMode.Lines MultiPartSection.Start

namespace Message

/-- The body of the `for byte in request.iter()` loop of
`Message::from_tcp_stream`, one byte at a time.  The returned flag is `false`
exactly when the Rust code executes `break`. -/
def stepByte (request : List Nat) (last_index : Nat) (s : ScanState) (b : Nat) :
    ScanState × Bool :=
  match s.parser_mode with
  | ParserMode.Boundaries boundary =>
    match s.multipart_section with
    | MultiPartSection.Skipping =>
      if b = 13 then ({ s with lwcr := true }, true)
      else if b = 10 ∧ s.lwcr = true then
        ({ s with multipart_section := MultiPartSection.Start,
                  start_boundary := s.endIdx + 1, lwcr := false }, true)
      else if b = 0 then (s, false)
      else ({ s with lwcr := false }, true)
    | MultiPartSection.Start =>
      match boundary[s.endIdx - s.start_boundary]? with
      | some boundary_byte =>
        if boundary_byte = b then
          if s.endIdx - s.start_boundary + 1 = boundary.length then
            ({ s with multipart_section := MultiPartSection.StartSuffix }, true)
          else (s, true)
        else if b = 45 ∧ s.start_boundary < s.endIdx then
          match boundary[s.endIdx - s.start_boundary - 1]? with
          | some boundary_byte' =>
            if boundary_byte' = b then
              ({ s with start_boundary := s.start_boundary + 1 }, true)
            else ({ s with multipart_section := MultiPartSection.Skipping }, true)
          | none => ({ s with multipart_section := MultiPartSection.Skipping }, true)
        else ({ s with multipart_section := MultiPartSection.Skipping }, true)
      | none =>
        if b = 0 then (s, false)
        else ({ s with multipart_section := MultiPartSection.Skipping }, true)
    | MultiPartSection.StartSuffix =>
      if b = 13 then ({ s with lwcr := true }, true)
      else if b = 10 ∧ s.lwcr = true then
        ({ s with multipart_section := MultiPartSection.End, lwcr := false,
                  start_data := s.endIdx }, true)
      else if b = 0 then (s, false)
      else ({ s with lwcr := false, multipart_section := MultiPartSection.Skipping }, true)
    | MultiPartSection.End =>
      if b = 13 then ({ s with lwcr := true }, true)
      else if b = 10 ∧ s.lwcr = true then
        ({ s with multipart_section := MultiPartSection.EndSecondary, lwcr := false,
                  end_data := s.endIdx - 1, start_boundary := s.endIdx + 1 }, true)
      else if b = 0 then (s, false)
      else (s, true)
    | MultiPartSection.EndSecondary =>
      if b = 13 then ({ s with lwcr := true }, true)
      else if b = 10 ∧ s.lwcr = true then
        ({ s with multipart_section := MultiPartSection.EndBoundary, lwcr := false }, true)
      else if b = 0 then (s, false)
      else ({ s with multipart_section := MultiPartSection.EndBoundary, lwcr := false }, true)
    | MultiPartSection.EndBoundary =>
      match boundary[s.endIdx - s.start_boundary]? with
      | some boundary_byte =>
        if boundary_byte = b then
          if s.endIdx - s.start_boundary + 1 = boundary.length then
            let s' := { s with multipart_section := MultiPartSection.StartSuffix }
            if s'.start_data > 0 ∧ s'.start_data < s'.end_data ∧
                s'.end_data < request.length then
              let data := listSlice request s'.start_data s'.end_data
              match get_query_args_from_multipart_blob data with
              | some (query_key, query_value) =>
                match s'.message.body with
                | BodyContentType.MultiPart values =>
                  ({ s' with message :=
                      { s'.message with
                        body := BodyContentType.MultiPart
                          (mapInsert query_key query_value values) } }, true)
                | BodyContentType.SinglePart _ => (s', true)
              | none => (s', true)
            else (s', true)
          else (s, true)
        else if b = 45 ∧ s.start_boundary < s.endIdx then
          match boundary[s.endIdx - s.start_boundary - 1]? with
          | some boundary_byte' =>
            if boundary_byte' = b then
              ({ s with start_boundary := s.start_boundary + 1 }, true)
            else ({ s with multipart_section := MultiPartSection.End }, true)
          | none => ({ s with multipart_section := MultiPartSection.End }, true)
        else
          ({ s with multipart_section := MultiPartSection.End,
                    lwcr := if b = 13 then true else s.lwcr }, true)
      | none =>
        if b = 0 then (s, false)
        else ({ s with multipart_section := MultiPartSection.End }, true)
  | ParserMode.Lines =>
    if b = 13 then ({ s with lwcr := true }, true)
    else if b = 10 ∧ s.lwcr = true then
      let clean_end := s.endIdx - 1
      match utf8Decode (listSlice request s.start clean_end) with
      | some chars =>
        let (sec, msg, pm) := parse_line (String.mk chars) s.psection s.message s.parser_mode
        ({ s with psection := sec, message := msg, parser_mode := pm,
                  start := s.endIdx + 1, start_boundary := s.endIdx + 1,
                  lwcr := false }, true)
      | none => ({ s with lwcr := false }, true)
    else if b = 0 ∨ s.endIdx = last_index then
      let clean_end := if b = 0 then s.endIdx else s.endIdx + 1
      match utf8Decode (listSlice request s.start clean_end) with
      | some chars =>
        let (sec, msg, pm) := parse_line (String.mk chars) s.psection s.message s.parser_mode
        ({ s with psection := sec, message := msg, parser_mode := pm }, false)
      | none => (s, false)
    else ({ s with lwcr := false }, true)

/-- Iterate `stepByte` over the buffer, incrementing `endIdx` after each
non-breaking iteration exactly as the Rust loop increments `end`. -/
def runBytes (request : List Nat) (last_index : Nat) :
    List Nat → ScanState → ScanState
  | [], s => s
  | b :: rest, s =>
    match stepByte request last_index s b with
    | (s', true) => runBytes request last_index rest { s' with endIdx := s'.endIdx + 1 }
    | (s', false) => s'

/-- The complete decode pass of `Message::from_tcp_stream`, returning the
final loop state. -/
def decodeState (request : List Nat) : ScanState :=
  let last_index :=
    match request.length with
    | 0 => 0
    | n => n - 1
  runBytes request last_index request initialState

/-- `Message::from_tcp_stream`: run the decode pass, then produce the message
only if the stored request line has a recognized method and protocol. -/
def from_tcp_stream (request : List Nat) : Option Message :=
  let s := decodeState request
  if s.message.request_line.method ≠ Method.Invalid ∧
      s.message.request_line.protocol ≠ Protocol.Invalid then
    some s.message
  else none

end Message
end Request

/-! ## `src/response.rs`: the response encoder -/

namespace Response

/-- The response `Message` of `src/response.rs`. -/
structure Message where
  protocol : String
  status : String
  headers : List (String × String)
  body : List Nat
  deriving DecidableEq, Repr

namespace Message

/-- `Message::new`. -/
def new (protocol status : String) (headers : List (String × String))
    (body : List Nat) : Message :=
  Message.mk protocol status headers body

end Message

/-- The order used by `headers.sort_by(|a, b| a.cmp(b))`: `Ord` on pairs of
strings — compare keys, break ties by value (string comparison is
lexicographic by scalar value, which agrees with Rust's byte-wise order). -/
def headerPairLe (x y : String × String) : Prop :=
  x.1 < y.1 ∨ (x.1 = y.1 ∧ x.2 ≤ y.2)

instance : DecidableRel headerPairLe := fun x y => by
  unfold headerPairLe; infer_instance

instance : IsTotal (String × String) headerPairLe where
  total x y := by
    unfold headerPairLe
    rcases lt_trichotomy x.1 y.1 with h | h | h
    · exact Or.inl (Or.inl h)
    · rcases le_total x.2 y.2 with h2 | h2
      · exact Or.inl (Or.inr ⟨h, h2⟩)
      · exact Or.inr (Or.inr ⟨h.symm, h2⟩)
    · exact Or.inr (Or.inl h)

instance : IsTrans (String × String) headerPairLe where
  trans x y z hxy hyz := by
    unfold headerPairLe at *
    rcases hxy with h1 | ⟨e1, v1⟩
    · rcases hyz with h2 | ⟨e2, _⟩
      · exact Or.inl (h1.trans h2)
      · exact Or.inl (e2 ▸ h1)
    · rcases hyz with h2 | ⟨e2, v2⟩
      · exact Or.inl (e1 ▸ h2)
      · exact Or.inr ⟨e1.trans e2, v1.trans v2⟩

/-- The sorted header list used by all three encoders. -/
def sortHeaders (l : List (String × String)) : List (String × String) :=
  List.insertionSort headerPairLe l

/-- Bytes of one emitted header line `"<Key>: <Value>\r\n"`. -/
def headerLineBytes (p : String × String) : List Nat :=
  utf8Encode (p.1 ++ ": " ++ p.2 ++ "\r\n").data

/-- The bytes contributed by the (sorted) header list, one line each. -/
def headersBlock : List (String × String) → List Nat
  | [] => []
  | p :: rest => headerLineBytes p ++ headersBlock rest

/-- The string form of the (sorted) header list, one line each. -/
def headersString : List (String × String) → String
  | [] => ""
  | p :: rest => (p.1 ++ ": " ++ p.2 ++ "\r\n") ++ headersString rest

namespace Message

/-- `Message::header_to_string`: status line, sorted header lines when the
header map is non-empty, then a blank line. -/
def header_to_string (m : Message) : String :=
  let response := m.protocol ++ " " ++ m.status ++ "\r\n"
  let response :=
    if m.headers ≠ [] then response ++ headersString (sortHeaders m.headers)
    else response
  response ++ "\r\n"

/-- `Message::to_string`: like `header_to_string`, then the body appended when
it is non-empty and valid UTF-8.  Takes `&mut self` but never writes, so the
returned message is unchanged. -/
def to_string (m : Message) : String × Message :=
  let response := m.protocol ++ " " ++ m.status ++ "\r\n"
  let response :=
    if m.headers ≠ [] then response ++ headersString (sortHeaders m.headers)
    else response
  let response := response ++ "\r\n"
  let response :=
    if m.body ≠ [] then
      match utf8Decode m.body with
      | some chars => response ++ String.mk chars
      | none => response
    else response
  (response, m)

/-- `Message::to_bytes`: status line bytes, sorted header lines when the
header map is non-empty, a blank line, then the body bytes when non-empty.
`response.append(&mut self.body)` moves the body out of the message, so the
returned message has an empty body. -/
def to_bytes (m : Message) : List Nat × Message :=
  let response := utf8Encode (m.protocol ++ " " ++ m.status ++ "\r\n").data
  let response :=
    if m.headers ≠ [] then response ++ headersBlock (sortHeaders m.headers)
    else response
  let response := response ++ utf8Encode ("\r\n" : String).data
  if m.body ≠ [] then (response ++ m.body, { m with body := [] })
  else (response, m)

end Message

/-- Modelled from the spec, section 6 (the refinement target for the response
encoder): `"<protocol> <status>\r\n"`, then for each header sorted by key
ascending `"<Key>: <Value>\r\n"`, then `"\r\n"`, then the body bytes. -/
def responseBytesSpec (m : Message) : List Nat :=
  utf8Encode (m.protocol ++ " " ++ m.status ++ "\r\n").data ++
    headersBlock (sortHeaders m.headers) ++
    utf8Encode ("\r\n" : String).data ++ m.body

end Response

/-! ## Helper lemmas: character case maps -/

/-- Packing a valid codepoint and unpacking it round-trips. -/
theorem charToNat_ofNat {n : Nat} (h : n.isValidChar) : (Char.ofNat n).toNat = n := by
  unfold Char.ofNat
  rw [dif_pos h]
  rfl

/-- Characters with equal codepoints are equal. -/
theorem char_eq_of_toNat_eq {a b : Char} (h : a.toNat = b.toNat) : a = b :=
  Char.ext (UInt32.ext h)

/-- Codepoint of `Char.toUpper`: subtract 32 on `a`-`z`, identity elsewhere. -/
theorem toUpper_toNat (c : Char) :
    (Char.toUpper c).toNat = if 97 ≤ c.toNat ∧ c.toNat ≤ 122 then c.toNat - 32 else c.toNat := by
  by_cases h : 97 ≤ c.toNat ∧ c.toNat ≤ 122
  · rw [if_pos h]
    show (if c.toNat ≥ 97 ∧ c.toNat ≤ 122 then Char.ofNat (c.toNat - 32) else c).toNat = _
    rw [if_pos h]
    exact charToNat_ofNat (Or.inl (by omega))
  · rw [if_neg h]
    show (if c.toNat ≥ 97 ∧ c.toNat ≤ 122 then Char.ofNat (c.toNat - 32) else c).toNat = _
    rw [if_neg h]

/-- Codepoint of `Char.toLower`: add 32 on `A`-`Z`, identity elsewhere. -/
theorem toLower_toNat (c : Char) :
    (Char.toLower c).toNat = if 65 ≤ c.toNat ∧ c.toNat ≤ 90 then c.toNat + 32 else c.toNat := by
  by_cases h : 65 ≤ c.toNat ∧ c.toNat ≤ 90
  · rw [if_pos h]
    show (if c.toNat ≥ 65 ∧ c.toNat ≤ 90 then Char.ofNat (c.toNat + 32) else c).toNat = _
    rw [if_pos h]
    exact charToNat_ofNat (Or.inl (by omega))
  · rw [if_neg h]
    show (if c.toNat ≥ 65 ∧ c.toNat ≤ 90 then Char.ofNat (c.toNat + 32) else c).toNat = _
    rw [if_neg h]

/-- `Char.toUpper` fixes characters that are not lowercase letters. -/
theorem toUpper_of_not_lower {c : Char} (h : ¬(97 ≤ c.toNat ∧ c.toNat ≤ 122)) :
    Char.toUpper c = c := by
  show (if c.toNat ≥ 97 ∧ c.toNat ≤ 122 then Char.ofNat (c.toNat - 32) else c) = c
  rw [if_neg h]

/-- `Char.toLower` fixes characters that are not uppercase letters. -/
theorem toLower_of_not_upper {c : Char} (h : ¬(65 ≤ c.toNat ∧ c.toNat ≤ 90)) :
    Char.toLower c = c := by
  show (if c.toNat ≥ 65 ∧ c.toNat ≤ 90 then Char.ofNat (c.toNat + 32) else c) = c
  rw [if_neg h]

/-- Uppercasing is idempotent. -/
theorem toUpper_idem (c : Char) : Char.toUpper (Char.toUpper c) = Char.toUpper c := by
  apply toUpper_of_not_lower
  rw [toUpper_toNat]
  by_cases h : 97 ≤ c.toNat ∧ c.toNat ≤ 122
  · rw [if_pos h]; omega
  · rw [if_neg h]; exact h

/-- Lowercasing is idempotent. -/
theorem toLower_idem (c : Char) : Char.toLower (Char.toLower c) = Char.toLower c := by
  apply toLower_of_not_upper
  rw [toLower_toNat]
  by_cases h : 65 ≤ c.toNat ∧ c.toNat ≤ 90
  · rw [if_pos h]; omega
  · rw [if_neg h]; exact h

/-- Uppercasing never produces the dash separator. -/
theorem toUpper_ne_dash {c : Char} (h : c ≠ '-') : Char.toUpper c ≠ '-' := by
  intro heq
  have h45 : (Char.toUpper c).toNat = 45 := by rw [heq]; rfl
  rw [toUpper_toNat] at h45
  by_cases hl : 97 ≤ c.toNat ∧ c.toNat ≤ 122
  · rw [if_pos hl] at h45; omega
  · rw [if_neg hl] at h45
    exact h (char_eq_of_toNat_eq h45)

/-- Lowercasing never produces the dash separator. -/
theorem toLower_ne_dash {c : Char} (h : c ≠ '-') : Char.toLower c ≠ '-' := by
  intro heq
  have h45 : (Char.toLower c).toNat = 45 := by rw [heq]; rfl
  rw [toLower_toNat] at h45
  by_cases hl : 65 ≤ c.toNat ∧ c.toNat ≤ 90
  · rw [if_pos hl] at h45; omega
  · rw [if_neg hl] at h45
    exact h (char_eq_of_toNat_eq h45)

/-! ## Helper lemmas: splitting and joining -/

/-- Splitting always yields at least one piece. -/
theorem splitOnChar_ne_nil (sep : Char) (l : List Char) : splitOnChar sep l ≠ [] := by
  induction l with
  | nil => simp [splitOnChar]
  | cons c cs ih =>
    cases h : splitOnChar sep cs with
    | nil => exact absurd h ih
    | cons p ps =>
      simp only [splitOnChar, h]
      split <;> simp

/-- No piece produced by splitting contains the separator. -/
theorem not_mem_of_mem_splitOnChar {sep : Char} {l : List Char} {p : List Char}
    (hp : p ∈ splitOnChar sep l) : sep ∉ p := by
  induction l generalizing p with
  | nil =>
    simp [splitOnChar] at hp
    simp [hp]
  | cons c cs ih =>
    cases h : splitOnChar sep cs with
    | nil => exact absurd h (splitOnChar_ne_nil sep cs)
    | cons q qs =>
      simp only [splitOnChar, h] at hp
      by_cases hc : c = sep
      · rw [if_pos hc] at hp
        rcases List.mem_cons.mp hp with rfl | hp'
        · simp
        · exact ih (h ▸ hp')
      · rw [if_neg hc] at hp
        rcases List.mem_cons.mp hp with rfl | hp'
        · intro hmem
          rcases List.mem_cons.mp hmem with rfl | hmem'
          · exact hc rfl
          · exact ih (h ▸ List.mem_cons_self q qs) hmem'
        · exact ih (h ▸ List.mem_cons_of_mem q hp')

/-- Every character of a piece produced by splitting is a character of the
split list. -/
theorem mem_of_mem_splitOnChar {sep : Char} {l p : List Char} {c : Char}
    (hp : p ∈ splitOnChar sep l) (hc : c ∈ p) : c ∈ l := by
  induction l generalizing p with
  | nil =>
    simp [splitOnChar] at hp
    subst hp
    exact absurd hc (List.not_mem_nil c)
  | cons x xs ih =>
    cases h : splitOnChar sep xs with
    | nil => exact absurd h (splitOnChar_ne_nil sep xs)
    | cons q qs =>
      simp only [splitOnChar, h] at hp
      by_cases hx : x = sep
      · rw [if_pos hx] at hp
        rcases List.mem_cons.mp hp with rfl | hp'
        · exact absurd hc (List.not_mem_nil c)
        · exact List.mem_cons_of_mem x (ih (h ▸ hp') hc)
      · rw [if_neg hx] at hp
        rcases List.mem_cons.mp hp with rfl | hp'
        · rcases List.mem_cons.mp hc with rfl | hc'
          · exact List.mem_cons_self c xs
          · exact List.mem_cons_of_mem x (ih (h ▸ List.mem_cons_self q qs) hc')
        · exact List.mem_cons_of_mem x (ih (h ▸ List.mem_cons_of_mem q hp') hc)

/-- A separator-free list splits into itself alone. -/
theorem splitOnChar_of_not_mem {sep : Char} {l : List Char} (h : sep ∉ l) :
    splitOnChar sep l = [l] := by
  induction l with
  | nil => rfl
  | cons c cs ih =>
    have hc : c ≠ sep := fun hc => h (hc ▸ List.mem_cons_self c cs)
    have hcs : sep ∉ cs := fun hm => h (List.mem_cons_of_mem c hm)
    simp only [splitOnChar, ih hcs]
    rw [if_neg hc]

/-- Splitting peels off a separator-free prefix before a separator. -/
theorem splitOnChar_append {sep : Char} {a : List Char} (r : List Char) (h : sep ∉ a) :
    splitOnChar sep (a ++ sep :: r) = a :: splitOnChar sep r := by
  induction a with
  | nil =>
    cases hr : splitOnChar sep r with
    | nil => exact absurd hr (splitOnChar_ne_nil sep r)
    | cons p ps => simp [splitOnChar, hr]
  | cons x xs ih =>
    have hx : x ≠ sep := fun hx => h (hx ▸ List.mem_cons_self x xs)
    have hxs : sep ∉ xs := fun hm => h (List.mem_cons_of_mem x hm)
    have hrec := ih hxs
    simp only [List.cons_append, splitOnChar, List.append_eq, hrec]
    rw [if_neg hx]

/-- Splitting on dashes undoes `joinDash` when no piece contains a dash. -/
theorem splitOnChar_joinDash {ps : List (List Char)} (hne : ps ≠ [])
    (hall : ∀ p ∈ ps, '-' ∉ p) : splitOnChar '-' (joinDash ps) = ps := by
  induction ps with
  | nil => exact absurd rfl hne
  | cons p qs ih =>
    cases qs with
    | nil =>
      show splitOnChar '-' (joinDash [p]) = [p]
      exact splitOnChar_of_not_mem (hall p (List.mem_cons_self p []))
    | cons q rest =>
      show splitOnChar '-' (p ++ '-' :: joinDash (q :: rest)) = p :: (q :: rest)
      rw [splitOnChar_append _ (hall p (List.mem_cons_self p _))]
      rw [ih (by simp) (fun x hx => hall x (List.mem_cons_of_mem p hx))]

/-- On every character, the lowercase expansion is the single ASCII-lowercased
character (the modelled fragment has no multi-character lowercase case). -/
theorem rustToLowercase_eq_toLower (c : Char) : rustToLowercase c = [Char.toLower c] := by
  have hlow : Char.toLower c =
      if 65 ≤ c.toNat ∧ c.toNat ≤ 90 then Char.ofNat (c.toNat + 32) else c := by
    by_cases h : 65 ≤ c.toNat ∧ c.toNat ≤ 90
    · rw [if_pos h]
      show (if c.toNat ≥ 65 ∧ c.toNat ≤ 90 then Char.ofNat (c.toNat + 32) else c) = _
      rw [if_pos h]
    · rw [if_neg h]
      show (if c.toNat ≥ 65 ∧ c.toNat ≤ 90 then Char.ofNat (c.toNat + 32) else c) = _
      rw [if_neg h]
  rw [hlow]
  unfold rustToLowercase
  by_cases h : 65 ≤ c.toNat ∧ c.toNat ≤ 90
  · rw [if_pos h, if_pos h]
  · rw [if_neg h, if_neg h]

/-- Lowercasing a list is mapping the single-character lowercase over it. -/
theorem lowercaseAll_eq_map (l : List Char) : lowercaseAll l = l.map Char.toLower := by
  induction l with
  | nil => rfl
  | cons c cs ih => simp [lowercaseAll, rustToLowercase_eq_toLower, ih]

/-- On ASCII characters, the uppercase expansion is the single
ASCII-uppercased character. -/
theorem rustToUppercase_of_ascii {c : Char} (h : c.toNat < 128) :
    rustToUppercase c = [Char.toUpper c] := by
  have hsharp : c ≠ 'ß' := by
    intro he
    rw [he] at h
    exact absurd h (by decide)
  unfold rustToUppercase
  by_cases h1 : 97 ≤ c.toNat ∧ c.toNat ≤ 122
  · rw [if_pos h1]
    congr 1
    show _ = (if c.toNat ≥ 97 ∧ c.toNat ≤ 122 then Char.ofNat (c.toNat - 32) else c)
    rw [if_pos h1]
  · rw [if_neg h1, if_neg hsharp, toUpper_of_not_lower h1]

/-- ASCII-uppercasing stays in the ASCII range. -/
theorem toUpper_ascii {c : Char} (h : c.toNat < 128) : (Char.toUpper c).toNat < 128 := by
  rw [toUpper_toNat]
  by_cases h1 : 97 ≤ c.toNat ∧ c.toNat ≤ 122
  · rw [if_pos h1]; omega
  · rw [if_neg h1]; exact h

/-- ASCII-lowercasing stays in the ASCII range. -/
theorem toLower_ascii {c : Char} (h : c.toNat < 128) : (Char.toLower c).toNat < 128 := by
  rw [toLower_toNat]
  by_cases h1 : 65 ≤ c.toNat ∧ c.toNat ≤ 90
  · rw [if_pos h1]; omega
  · rw [if_neg h1]; exact h

/-- On a segment with an ASCII first character, `capPart` is uppercase-head,
lowercase-tail with the single-character maps. -/
theorem capPart_ascii_eq {c : Char} (cs : List Char) (h : c.toNat < 128) :
    capPart (c :: cs) = Char.toUpper c :: cs.map Char.toLower := by
  show rustToUppercase c ++ lowercaseAll cs = _
  rw [rustToUppercase_of_ascii h, lowercaseAll_eq_map]
  rfl

/-- `capPart` maps an ASCII dash-free segment to a dash-free segment. -/
theorem capPart_not_dash {p : List Char} (ha : ∀ c ∈ p, c.toNat < 128)
    (h : '-' ∉ p) : '-' ∉ capPart p := by
  cases p with
  | nil => simp [capPart]
  | cons c cs =>
    have hc : c ≠ '-' := fun hc => h (hc ▸ List.mem_cons_self c cs)
    have hcs : '-' ∉ cs := fun hm => h (List.mem_cons_of_mem c hm)
    rw [capPart_ascii_eq cs (ha c (List.mem_cons_self c cs))]
    intro hmem
    rcases List.mem_cons.mp hmem with heq | hmem'
    · exact toUpper_ne_dash hc heq.symm
    · rcases List.mem_map.mp hmem' with ⟨a, haa, hae⟩
      have hane : a ≠ '-' := fun h2 => hcs (h2 ▸ haa)
      exact toLower_ne_dash hane hae

/-- `capPart` maps an ASCII segment to an ASCII segment. -/
theorem capPart_ascii {p : List Char} (ha : ∀ c ∈ p, c.toNat < 128) :
    ∀ c ∈ capPart p, c.toNat < 128 := by
  cases p with
  | nil => simp [capPart]
  | cons c cs =>
    rw [capPart_ascii_eq cs (ha c (List.mem_cons_self c cs))]
    intro d hd
    rcases List.mem_cons.mp hd with rfl | hd'
    · exact toUpper_ascii (ha c (List.mem_cons_self c cs))
    · rcases List.mem_map.mp hd' with ⟨a, haa, rfl⟩
      exact toLower_ascii (ha a (List.mem_cons_of_mem c haa))

/-- Capitalizing one ASCII segment is idempotent. -/
theorem capPart_idem {p : List Char} (ha : ∀ c ∈ p, c.toNat < 128) :
    capPart (capPart p) = capPart p := by
  cases p with
  | nil => rfl
  | cons c cs =>
    have hca : c.toNat < 128 := ha c (List.mem_cons_self c cs)
    rw [capPart_ascii_eq cs hca, capPart_ascii_eq (cs.map Char.toLower) (toUpper_ascii hca)]
    rw [toUpper_idem, List.map_map]
    congr 1
    exact List.map_congr_left (fun a _ => toLower_idem a)

/-- What `splitn(2, sep)` returns: the whole list when the separator is
absent, otherwise the separator-free prefix and the literal remainder. -/
theorem splitN2_spec (sep : Char) (l : List Char) :
    (sep ∉ l ∧ splitN2 sep l = [l]) ∨
    (∃ a b, sep ∉ a ∧ l = a ++ sep :: b ∧ splitN2 sep l = [a, b]) := by
  induction l with
  | nil => left; simp [splitN2]
  | cons c cs ih =>
    by_cases hc : c = sep
    · right
      exact ⟨[], cs, by simp, by simp [hc], by simp [splitN2, hc]⟩
    · rcases ih with ⟨hmem, heq⟩ | ⟨a, b, ha, hl, heq⟩
      · left
        constructor
        · intro hm
          rcases List.mem_cons.mp hm with h | h
          · exact hc h.symm
          · exact hmem h
        · simp only [splitN2, heq]
          rw [if_neg hc]
      · right
        refine ⟨c :: a, b, ?_, by rw [hl]; simp, ?_⟩
        · intro hm
          rcases List.mem_cons.mp hm with h | h
          · exact hc h.symm
          · exact ha h
        · simp only [splitN2, heq]
          rw [if_neg hc]

/-! ## Helper lemmas: UTF-8 encoding -/

/-- UTF-8 encoding distributes over concatenation. -/
theorem utf8Encode_append (l1 l2 : List Char) :
    utf8Encode (l1 ++ l2) = utf8Encode l1 ++ utf8Encode l2 := by
  induction l1 with
  | nil => rfl
  | cons c cs ih => simp [utf8Encode, ih]

/-- The byte block of the header lines is the UTF-8 encoding of their
string form. -/
theorem headersBlock_eq_headersString (l : List (String × String)) :
    Response.headersBlock l = utf8Encode (Response.headersString l).data := by
  induction l with
  | nil => rfl
  | cons p rest ih =>
    simp [Response.headersBlock, Response.headersString, String.data_append,
      utf8Encode_append, ih, Response.headerLineBytes, utf8Encode, List.append_assoc]

/-! ## Claim C1 -/

/-- Claim C1: `Message::from_tcp_stream` returns a message exactly when the
request line stored at the end of the decode pass has a non-Invalid method
and a non-Invalid protocol; in particular the empty buffer and every all-null
buffer decode to nothing. -/
theorem c1_from_tcp_stream_validity_gate :
    (∀ request : List Nat,
      (Request.Message.from_tcp_stream request).isSome = true ↔
        ((Request.Message.decodeState request).message.request_line.method ≠
            Request.Method.Invalid ∧
         (Request.Message.decodeState request).message.request_line.protocol ≠
            Request.Protocol.Invalid)) ∧
    Request.Message.from_tcp_stream [] = none ∧
    (∀ n : Nat, Request.Message.from_tcp_stream (List.replicate n 0) = none) := by
  refine ⟨fun request => ?_, by decide, fun n => ?_⟩
  · unfold Request.Message.from_tcp_stream
    by_cases h :
        (Request.Message.decodeState request).message.request_line.method ≠
            Request.Method.Invalid ∧
        (Request.Message.decodeState request).message.request_line.protocol ≠
            Request.Protocol.Invalid
    · rw [if_pos h]
      simpa using h
    · rw [if_neg h]
      simpa using h
  · cases n with
    | zero => decide
    | succ k =>
      have hslice : ∀ req : List Nat, listSlice req 0 0 = [] := by
        intro req; simp [listSlice]
      have hreq : Request.Message.get_request_line (String.mk []) = none := by decide
      have hstep : ∀ (req : List Nat) (li : Nat),
          Request.Message.stepByte req li Request.initialState 0 =
            (Request.initialState, false) := by
        intro req li
        simp [Request.Message.stepByte, Request.initialState, hslice,
          Request.Message.parse_line, hreq, Request.initialMessage,
          show utf8Decode [] = some [] from rfl]
      unfold Request.Message.from_tcp_stream Request.Message.decodeState
      rw [List.replicate_succ]
      show (if _ then _ else _) = _
      rw [show Request.Message.runBytes (0 :: List.replicate k 0)
            (match (0 :: List.replicate k 0).length with | 0 => 0 | n => n - 1)
            (0 :: List.replicate k 0) Request.initialState = Request.initialState from by
        simp only [Request.Message.runBytes, hstep]]
      decide

/-! ## Claim C2 -/

/-- Claim C2, counterexample: the claim says the item `a=b=c` yields key `a`
mapped to `b=c`; the code splits the item on every `=` (`item.split("=")`,
not `splitn`), gets three pieces, and therefore maps `a` to the literal `1`. -/
theorem c2_query_tokenizer_counterexample :
    Request.Message.get_query_args_from_string "a=b=c" = some [("a", "1")] ∧
    (Request.Message.get_query_args_from_string "a=b=c").map (mapLookup "a") ≠
      some (some "b=c") := by decide

/-- Claim C2, amended: the tokenizer splits on `&` and splits each item on
every `=`; an item with exactly one `=` yields the literal key/value pair, an
item with no `=` or with two or more `=` maps its first piece to the literal
`1` (so `a=b=c` yields `a` mapped to `1`), and the empty input yields no
mapping at all. -/
theorem c2_query_tokenizer_amended :
    Request.Message.get_query_args_from_string "" = none ∧
    Request.Message.get_query_args_from_string "a=1&b=2&c" =
      some [("a", "1"), ("b", "2"), ("c", "1")] ∧
    Request.Message.get_query_args_from_string "a=b=c" = some [("a", "1")] ∧
    (∀ k v : String, '&' ∉ k.data → '=' ∉ k.data → '&' ∉ v.data → '=' ∉ v.data →
      Request.Message.get_query_args_from_string (k ++ "=" ++ v) = some [(k, v)]) := by
  refine ⟨by decide, by decide, by decide, fun k v hk1 hk2 hv1 hv2 => ?_⟩
  have hdata : (k ++ "=" ++ v).data = k.data ++ '=' :: v.data := by
    simp [String.data_append]
  have hne : (k ++ "=" ++ v).data ≠ [] := by
    rw [hdata]; simp
  have hamp : '&' ∉ (k ++ "=" ++ v).data := by
    rw [hdata]
    intro hm
    rcases List.mem_append.mp hm with h | h
    · exact hk1 h
    · rcases List.mem_cons.mp h with h | h
      · exact absurd h.symm (by decide)
      · exact hv1 h
  have harg : Request.Message.insertQueryArg [] (k.data ++ '=' :: v.data) = [(k, v)] := by
    unfold Request.Message.insertQueryArg
    rw [splitOnChar_append _ hk2, splitOnChar_of_not_mem hv2]
    rfl
  unfold Request.Message.get_query_args_from_string
  rw [if_pos hne, splitOnChar_of_not_mem hamp]
  simp only [List.foldl, hdata, harg]
  rfl

/-- Claim C2, witness: the amended single-pair clause applied at `abc=xyz`. -/
theorem c2_query_tokenizer_witness :
    Request.Message.get_query_args_from_string ("abc" ++ "=" ++ "xyz") =
      some [("abc", "xyz")] :=
  c2_query_tokenizer_amended.2.2.2 "abc" "xyz" (by decide) (by decide) (by decide) (by decide)

/-! ## Claim C3 -/

/-- Claim C3, counterexample: in boundary-scanning mode a null byte does not
always abort.  In the `Start` state with the boundary-offset lookup in range
(boundary `[88]`, offset 0), the step on byte 0 continues (flag `true`) after
desynchronizing to `Skipping`, and the byte after the null is then processed:
running the scanner over `[0, 13]` ends with the carriage-return flag set by
the second byte. -/
theorem c3_null_abort_counterexample :
    (Request.Message.stepByte [] 0
        { Request.initialState with
            parser_mode := Request.ParserMode.Boundaries [88],
            multipart_section := Request.MultiPartSection.Start } 0).2 = true ∧
    (Request.Message.runBytes [0, 13] 1 [0, 13]
        { Request.initialState with
            parser_mode := Request.ParserMode.Boundaries [88],
            multipart_section := Request.MultiPartSection.Start }).lwcr = true := by decide

/-- Claim C3, amended: in boundary-scanning mode a null byte aborts the scan
exactly when the scanner is in `Skipping`, `StartSuffix`, `End` or
`EndSecondary`, or when it is in `Start` or `EndBoundary` with the
boundary-offset lookup out of range; in `Start` or `EndBoundary` with the
offset in range the null byte is handled like any other byte and the scan
continues. -/
theorem c3_null_abort_amended (request : List Nat) (li : Nat) (s : Request.ScanState)
    (boundary : List Nat) (h : s.parser_mode = Request.ParserMode.Boundaries boundary) :
    (Request.Message.stepByte request li s 0).2 = false ↔
      ((s.multipart_section ≠ Request.MultiPartSection.Start ∧
        s.multipart_section ≠ Request.MultiPartSection.EndBoundary) ∨
       boundary[s.endIdx - s.start_boundary]? = none) := by
  obtain ⟨message, start, sb, sd, psec, ei, ed, lwcr, pm, ms⟩ := s
  simp only at h
  subst h
  cases ms
  all_goals simp only [Request.Message.stepByte]
  case Skipping | StartSuffix | End | EndSecondary => simp
  case Start =>
    cases hb : boundary[ei - sb]? with
    | none => simp [hb]
    | some bb =>
      simp only [hb]
      by_cases hbb : bb = 0
      · rw [if_pos hbb]
        split <;> simp
      · rw [if_neg hbb]
        simp
  case EndBoundary =>
    cases hb : boundary[ei - sb]? with
    | none => simp [hb]
    | some bb =>
      simp only [hb]
      by_cases hbb : bb = 0
      · rw [if_pos hbb]
        split
        · split
          · split
            · cases message.body <;> simp
            · simp
          · simp
        · simp
      · rw [if_neg hbb]
        simp

/-- Claim C3, witness: the amended equivalence applied in the `Skipping`
state, where the null byte does abort. -/
theorem c3_null_abort_witness :
    (Request.Message.stepByte [] 0
        { Request.initialState with
            parser_mode := Request.ParserMode.Boundaries [88],
            multipart_section := Request.MultiPartSection.Skipping } 0).2 = false :=
  (c3_null_abort_amended [] 0
      { Request.initialState with
          parser_mode := Request.ParserMode.Boundaries [88],
          multipart_section := Request.MultiPartSection.Skipping } [88] rfl).mpr
    (Or.inl (by decide))

/-! ## Claim C4 -/

set_option maxRecDepth 10000 in
/-- Claim C4, counterexample: a well-formed multipart body whose boundary
token has no leading dashes is never matched by the scanner.  With boundary
`XYZ`, one part named `file` with payload `hello`, a leading `--XYZ` line and
a terminating `--XYZ--` line, decoding succeeds but the multipart mapping is
empty: there is no key `file`. -/
theorem c4_multipart_roundtrip_counterexample :
    (Request.Message.from_tcp_stream (strBytes "POST / HTTP/1.1\r\nContent-Type: multipart/form-data; boundary=XYZ\r\n\r\n--XYZ\r\nContent-Disposition: form-data; name=\"file\"\r\n\r\nhello\r\n\r\n--XYZ--\r\n")).map
        (fun m => m.body) =
      some (Request.BodyContentType.MultiPart []) := by decide

set_option maxRecDepth 40000 in
/-- Claim C4, amended: the round-trip holds when the boundary token itself
begins with dash characters (as the browser-generated boundaries in the
repository tests do), because the matcher absorbs the extra `--` prefix via
its dash-absorption rule.  Concretely, with boundary `----X` and a single
part named `file` whose payload `abc\r\ndef\nghi` contains interior CR and LF
bytes, decoding yields a MultiPart mapping whose `file` entry holds exactly
the payload bytes. -/
theorem c4_multipart_roundtrip_amended :
    (Request.Message.from_tcp_stream (strBytes "POST / HTTP/1.1\r\nContent-Type: multipart/form-data; boundary=----X\r\n\r\n------X\r\nContent-Disposition: form-data; name=\"file\"\r\n\r\nabc\r\ndef\nghi\r\n\r\n------X--\r\n")).map
        (fun m =>
          match m.body with
          | Request.BodyContentType.MultiPart values =>
            (mapLookup "file" values).map (fun v => v.body)
          | Request.BodyContentType.SinglePart _ => none) =
      some (some (strBytes "abc\r\ndef\nghi")) := by decide

/-! ## Claim C5 -/

/-- Claim C5, counterexample: `capitalize_key` is not idempotent on every
string, because the Rust uppercase map is the full Unicode one and can expand
one character into several: `'ß'.to_uppercase()` yields `SS`, so
`capitalize_key "ß" = "SS"` while a second pass turns `SS` into `Ss`. -/
theorem c5_capitalize_key_counterexample :
    capitalize_key "ß" = "SS" ∧
    capitalize_key (capitalize_key "ß") = "Ss" ∧
    capitalize_key (capitalize_key "ß") ≠ capitalize_key "ß" := by decide

/-- Claim C5, amended: header key canonicalization is idempotent on every
string of ASCII characters (where the Unicode case maps are the plain
single-character ASCII ones), and the three casings of `content-type` all
canonicalize to `Content-Type`; full idempotence fails on multi-character
Unicode case expansions such as the sharp s. -/
theorem c5_capitalize_key_amended :
    (∀ k : String, (∀ c ∈ k.data, c.toNat < 128) →
      capitalize_key (capitalize_key k) = capitalize_key k) ∧
    capitalize_key "content-type" = "Content-Type" ∧
    capitalize_key "CONTENT-TYPE" = "Content-Type" ∧
    capitalize_key "CoNtEnT-tYpE" = "Content-Type" := by
  refine ⟨fun k hk => ?_, by decide, by decide, by decide⟩
  unfold capitalize_key
  congr 1
  show joinDash (List.map capPart
      (splitOnChar '-' (joinDash (List.map capPart (splitOnChar '-' k.data))))) = _
  rw [splitOnChar_joinDash]
  · rw [List.map_map]
    congr 1
    refine List.map_congr_left (fun p hp => ?_)
    exact capPart_idem (fun c hc => hk c (mem_of_mem_splitOnChar hp hc))
  · intro h
    exact splitOnChar_ne_nil '-' k.data (List.map_eq_nil_iff.mp h)
  · intro p hp
    rcases List.mem_map.mp hp with ⟨q, hq, rfl⟩
    exact capPart_not_dash (fun c hc => hk c (mem_of_mem_splitOnChar hq hc))
      (not_mem_of_mem_splitOnChar hq)

/-- Claim C5, witness: the amended ASCII idempotence clause applied to a
mixed-case ASCII key. -/
theorem c5_capitalize_key_witness :
    capitalize_key (capitalize_key "conTent-tYpe") = capitalize_key "conTent-tYpe" :=
  c5_capitalize_key_amended.1 "conTent-tYpe" (by decide)

/-! ## Claim C6 -/

/-- Claim C6, counterexample: for the request line `GET /x? HTTP/1.1` the URI
splits at the trailing `?`, leaving an empty query string, yet the request
URI `/x?` differs from the base `/x` — so the claimed reconstruction
(`request_uri` equals the base whenever the query string is empty) fails. -/
theorem c6_request_line_counterexample :
    (Request.Message.get_request_line "GET /x? HTTP/1.1").map
        (fun l => (l.request_uri, l.request_uri_base, l.query_string)) =
      some ("/x?", "/x", "") ∧
    ("/x?" : String) ≠ "/x" := by decide

/-- Claim C6, amended: a trimmed request line with exactly three space-split
tokens, recognized method and recognized protocol yields a `Line` whose
method and protocol match the tokens and whose URI reconstructs as: base
equals the URI and the query string is empty when the URI has no `?`, and
otherwise URI = base ++ `?` ++ query string with no `?` in the base (so a URI
ending in `?` has an empty query string while the URI still differs from the
base); if either token is unrecognized, no `Line` is returned. -/
theorem c6_request_line_amended :
    (∀ (line : String) (p0 p1 p2 : List Char),
      splitOnChar ' ' (trimList line.data) = [p0, p1, p2] →
      Request.methodFromText (String.mk p0) ≠ Request.Method.Invalid →
      Request.protocolFromText (String.mk p2) ≠ Request.Protocol.Invalid →
      ∃ l, Request.Message.get_request_line line = some l ∧
        l.method = Request.methodFromText (String.mk p0) ∧
        l.protocol = Request.protocolFromText (String.mk p2) ∧
        l.request_uri = String.mk p1 ∧
        ('?' ∉ p1 → l.request_uri_base = l.request_uri ∧ l.query_string = "") ∧
        ('?' ∈ p1 → l.request_uri.data = l.request_uri_base.data ++ '?' :: l.query_string.data ∧
          '?' ∉ l.request_uri_base.data)) ∧
    (∀ (line : String) (p0 p1 p2 : List Char),
      splitOnChar ' ' (trimList line.data) = [p0, p1, p2] →
      Request.methodFromText (String.mk p0) = Request.Method.Invalid ∨
        Request.protocolFromText (String.mk p2) = Request.Protocol.Invalid →
      Request.Message.get_request_line line = none) := by
  constructor
  · intro line p0 p1 p2 hsplit hm hp
    simp only [Request.Message.get_request_line, hsplit]
    rw [if_pos ⟨hm, hp⟩]
    rcases splitN2_spec '?' p1 with ⟨hmem, heq⟩ | ⟨a, b, ha, hl, heq⟩
    · refine ⟨_, rfl, rfl, rfl, rfl, fun _ => ?_, fun hin => absurd hin hmem⟩
      simp [Request.Message.splitUri, heq]
    · have hin : '?' ∈ p1 := by rw [hl]; simp
      refine ⟨_, rfl, rfl, rfl, rfl, fun hnin => absurd hin hnin, fun _ => ?_⟩
      simp only [Request.Message.splitUri, heq]
      exact ⟨hl, ha⟩
  · intro line p0 p1 p2 hsplit hinv
    simp only [Request.Message.get_request_line, hsplit]
    rw [if_neg]
    intro ⟨h1, h2⟩
    rcases hinv with h | h
    · exact h1 h
    · exact h2 h

/-- Claim C6, witness: the amended positive clause applied to the line
`GET /a?x=1 HTTP/1.1`. -/
theorem c6_request_line_witness :
    ∃ l, Request.Message.get_request_line "GET /a?x=1 HTTP/1.1" = some l ∧
      l.method = Request.methodFromText (String.mk "GET".data) ∧
      l.protocol = Request.protocolFromText (String.mk "HTTP/1.1".data) ∧
      l.request_uri = String.mk "/a?x=1".data ∧
      ('?' ∉ "/a?x=1".data → l.request_uri_base = l.request_uri ∧ l.query_string = "") ∧
      ('?' ∈ "/a?x=1".data →
        l.request_uri.data = l.request_uri_base.data ++ '?' :: l.query_string.data ∧
        '?' ∉ l.request_uri_base.data) :=
  c6_request_line_amended.1 "GET /a?x=1 HTTP/1.1" "GET".data "/a?x=1".data "HTTP/1.1".data
    (by decide) (by decide) (by decide)

/-! ## Claim C7 -/

/-- Claim C7: a trimmed request line with exactly one token forces method
`Get` and protocol `V0_9`, takes the token with leading and trailing null
bytes trimmed as the request URI with the same base/query splitting, and
yields nothing when that URI is empty. -/
theorem c7_legacy_request_line :
    ∀ (line : String) (t : List Char),
      splitOnChar ' ' (trimList line.data) = [t] →
      (trimMatches (Char.ofNat 0) t = [] →
        Request.Message.get_request_line line = none) ∧
      (trimMatches (Char.ofNat 0) t ≠ [] →
        ∃ l, Request.Message.get_request_line line = some l ∧
          l.method = Request.Method.Get ∧ l.protocol = Request.Protocol.V0_9 ∧
          l.request_uri = String.mk (trimMatches (Char.ofNat 0) t) ∧
          ('?' ∉ trimMatches (Char.ofNat 0) t →
            l.request_uri_base = l.request_uri ∧ l.query_string = "") ∧
          ('?' ∈ trimMatches (Char.ofNat 0) t →
            l.request_uri.data = l.request_uri_base.data ++ '?' :: l.query_string.data ∧
            '?' ∉ l.request_uri_base.data)) := by
  intro line t hsplit
  constructor
  · intro hempty
    simp only [Request.Message.get_request_line, hsplit]
    rw [if_neg (fun hc => hc hempty)]
  · intro hne
    simp only [Request.Message.get_request_line, hsplit]
    rw [if_pos hne]
    rcases splitN2_spec '?' (trimMatches (Char.ofNat 0) t) with
      ⟨hmem, heq⟩ | ⟨a, b, ha, hl, heq⟩
    · refine ⟨_, rfl, rfl, rfl, rfl, fun _ => ?_, fun hin => absurd hin hmem⟩
      simp [Request.Message.splitUri, heq]
    · have hin : '?' ∈ trimMatches (Char.ofNat 0) t := by rw [hl]; simp
      refine ⟨_, rfl, rfl, rfl, rfl, fun hnin => absurd hin hnin, fun _ => ?_⟩
      simp only [Request.Message.splitUri, heq]
      exact ⟨hl, ha⟩

/-- Claim C7, witness: the single-token clause applied to `html/index.html`. -/
theorem c7_legacy_request_line_witness :
    ∃ l, Request.Message.get_request_line "html/index.html" = some l ∧
      l.method = Request.Method.Get ∧ l.protocol = Request.Protocol.V0_9 ∧
      l.request_uri = String.mk (trimMatches (Char.ofNat 0) "html/index.html".data) ∧
      ('?' ∉ trimMatches (Char.ofNat 0) "html/index.html".data →
        l.request_uri_base = l.request_uri ∧ l.query_string = "") ∧
      ('?' ∈ trimMatches (Char.ofNat 0) "html/index.html".data →
        l.request_uri.data = l.request_uri_base.data ++ '?' :: l.query_string.data ∧
        '?' ∉ l.request_uri_base.data) :=
  (c7_legacy_request_line "html/index.html" "html/index.html".data (by decide)).2 (by decide)

/-! ## Claim C8 -/

/-- Claim C8: `Message::to_bytes` emits the status line, the header lines in
ascending order (the sorted header list is ordered by key and is a
permutation of the header map), a blank line, then the body bytes — and for
an empty header map with protocol `HTTP/1.0` and status `200 OK` the output
is exactly that status line, a blank line, and the body. -/
theorem c8_response_to_bytes_format :
    (∀ m : Response.Message,
      (Response.Message.to_bytes m).1 = Response.responseBytesSpec m ∧
      (Response.sortHeaders m.headers).Pairwise (fun x y => x.1 ≤ y.1) ∧
      (Response.sortHeaders m.headers).Perm m.headers) ∧
    (∀ body : List Nat,
      (Response.Message.to_bytes (Response.Message.new "HTTP/1.0" "200 OK" [] body)).1 =
        strBytes "HTTP/1.0 200 OK\r\n\r\n" ++ body) := by
  constructor
  · intro m
    refine ⟨?_, ?_, ?_⟩
    · unfold Response.Message.to_bytes Response.responseBytesSpec
      by_cases h1 : m.headers = [] <;> by_cases h2 : m.body = [] <;>
        simp [h1, h2, Response.sortHeaders, Response.headersBlock]
    · have hs := List.sorted_insertionSort Response.headerPairLe m.headers
      exact hs.imp (fun hxy => by
        rcases hxy with h | ⟨h, _⟩
        · exact le_of_lt h
        · exact le_of_eq h)
    · exact List.perm_insertionSort Response.headerPairLe m.headers
  · intro body
    unfold Response.Message.to_bytes Response.Message.new
    by_cases hb : body = []
    · simp [hb]
      decide
    · simp [hb]
      rw [← List.append_assoc]
      have hpref : utf8Encode
            ['H', 'T', 'T', 'P', '/', '1', '.', '0', ' ', '2', '0', '0', ' ', 'O', 'K',
              '\x0d', '\n'] ++ utf8Encode ['\x0d', '\n'] =
          strBytes "HTTP/1.0 200 OK\x0d\n\x0d\n" := by decide
      rw [hpref]

/-! ## Claim C9 -/

set_option maxRecDepth 40000 in
/-- Claim C9, counterexample: for a `HEAD` request carrying a multipart
`Content-Type`, the boundary scanner runs regardless of the parser section,
so body bytes are parsed even though the section never advances to
`MessageBody`: the decoded message has a MultiPart body whose `file` entry
holds the payload. -/
theorem c9_no_body_policy_counterexample :
    (Request.Message.from_tcp_stream (strBytes "HEAD / HTTP/1.1\r\nContent-Type: multipart/form-data; boundary=----X\r\n\r\n------X\r\nContent-Disposition: form-data; name=\"file\"\r\n\r\npayload\r\n\r\n------X--\r\n")).map
        (fun m =>
          (m.request_line.method,
           match m.body with
           | Request.BodyContentType.MultiPart values =>
             (mapLookup "file" values).map (fun v => v.body)
           | Request.BodyContentType.SinglePart _ => none)) =
      some (Request.Method.Head, some (strBytes "payload")) := by decide

set_option maxRecDepth 10000 in
/-- Claim C9, amended: when the resolved method has body-presence policy
`No`, dispatching the blank line that ends the headers leaves the parser in
the `HeaderFields` section — so in line mode body lines are never parsed, and
in particular `HEAD / HTTP/2.0\r\n\r\nabc=123` decodes to a message whose
body is the initial empty SinglePart mapping; only the multipart boundary
scanner, which ignores the section, can still consume body bytes. -/
theorem c9_no_body_policy_amended :
    (∀ (line : String) (message : Request.Message) (pm : Request.ParserMode),
      (rustTrim line).data = [] →
      Request.Message.method_has_request_body message.request_line.method =
        Request.SettingValence.No →
      (Request.Message.parse_line line Request.ParserSection.HeaderFields message pm).1 =
        Request.ParserSection.HeaderFields) ∧
    (Request.Message.from_tcp_stream (strBytes "HEAD / HTTP/2.0\r\n\r\nabc=123")).map
        (fun m => m.body) =
      some (Request.BodyContentType.SinglePart []) := by
  refine ⟨fun line message pm hempty hno => ?_, by decide⟩
  cases hct : mapLookup "Content-Type" message.headers with
  | none => simp [Request.Message.parse_line, hempty, hct, hno]
  | some ct =>
    cases hb : ct.get_key_value "boundary" with
    | none => simp [Request.Message.parse_line, hempty, hct, hb, hno]
    | some boundary => simp [Request.Message.parse_line, hempty, hct, hb, hno]

/-- Claim C9, witness: the amended blank-line clause applied to a message
whose request line carries the `Head` method. -/
theorem c9_no_body_policy_witness :
    (Request.Message.parse_line "" Request.ParserSection.HeaderFields
        { Request.initialMessage with
            request_line :=
              { Request.initialMessage.request_line with method := Request.Method.Head } }
        Request.ParserMode.Lines).1 = Request.ParserSection.HeaderFields :=
  c9_no_body_policy_amended.1 ""
    { Request.initialMessage with
        request_line :=
          { Request.initialMessage.request_line with method := Request.Method.Head } }
    Request.ParserMode.Lines (by decide) (by decide)

/-! ## Claim C10 -/

/-- Claim C10: `Message::to_bytes` moves the body out of the message — after
one call the body field is empty (everything else unchanged), a second call
returns only the status line, the header lines and the final blank line
(exactly the bytes of `header_to_string`), and `to_string` leaves the message
(in particular its body) unchanged. -/
theorem c10_to_bytes_moves_body :
    ∀ m : Response.Message,
      (Response.Message.to_bytes m).2 = { m with body := [] } ∧
      ((Response.Message.to_bytes m).2).body = [] ∧
      (Response.Message.to_bytes ((Response.Message.to_bytes m).2)).1 =
        utf8Encode (Response.Message.header_to_string m).data ∧
      (Response.Message.to_string m).2 = m := by
  intro m
  have hsnd : (Response.Message.to_bytes m).2 = { m with body := [] } := by
    unfold Response.Message.to_bytes
    by_cases hb : m.body = []
    · simp only [hb, ne_eq, not_true_eq_false, if_false, reduceIte]
      cases m with
      | mk protocol status headers body =>
        simp at hb
        simp [hb]
    · simp [hb]
  refine ⟨hsnd, by rw [hsnd], ?_, rfl⟩
  rw [hsnd]
  unfold Response.Message.to_bytes Response.Message.header_to_string
  by_cases h1 : m.headers = [] <;>
    simp [h1, headersBlock_eq_headersString, String.data_append, utf8Encode_append,
      utf8Encode, List.append_assoc]
